import Mathlib

/-!
Verification of the Samourais meme-video backend.

The development shallowly embeds the two request handlers of the
repository: the text/watermark variant in server.js and the
template-overlay variant. Machine numbers that appear in the
JavaScript source are embedded as Int and Rat; strings that the code
assembles for the external transcoding engine are rebuilt with the
same concatenation structure. Models of external-engine behaviour
(the filter-graph tokenizer and the scale filter) are marked as such
in their doc comments.
-/

/-! ## JavaScript numeric helpers -/

/-- Embeds Math.round: round half toward positive infinity. -/
def jsRound (q : ℚ) : Int := ⌊q + 1/2⌋

/-- Decimal rendering of the rational n/100 the way JavaScript prints
the corresponding number: no trailing zeros, no decimal point for
integers, a leading minus for negatives. -/
def numToDecStr (n : Int) : String :=
  let s := if n < 0 then "-" else ""
  let a := n.natAbs
  let ip := a / 100
  let fp := a % 100
  if fp = 0 then s ++ toString ip
  else if fp % 10 = 0 then s ++ toString ip ++ "." ++ toString (fp / 10)
  else if fp < 10 then s ++ toString ip ++ ".0" ++ toString fp
  else s ++ toString ip ++ "." ++ toString fp

/-! ## Text escaping (escapeFFmpegText in server.js)

The JavaScript source applies six global single-character replacements
in sequence. `replaceChar` embeds one such String.prototype.replace
with a one-character pattern. -/

/-- Backslash character. -/
def bsc : Char := '\x5c'

/-- Single-quote character. -/
def qc : Char := '\x27'

/-- Single-quote as a one-character string, for building filter text. -/
def sqs : String := "\x27"

/-- Global replacement of the single character c by the string r. -/
def replaceChar (c : Char) (r : List Char) : List Char → List Char
  | [] => []
  | a :: l => (if a = c then r else [a]) ++ replaceChar c r l

/-- Embeds escapeFFmpegText from server.js: the six chained
replacements, in source order (backslash, quote, colon, brackets,
percent). -/
def escapeFFmpegText (l : List Char) : List Char :=
  replaceChar '%' [bsc, '%']
    (replaceChar ']' [bsc, ']']
      (replaceChar '[' [bsc, '[']
        (replaceChar ':' [bsc, ':']
          (replaceChar qc [qc, bsc, qc, qc]
            (replaceChar bsc [bsc, bsc, bsc, bsc] l)))))

/-- String-level wrapper of the escaping function. -/
def escapeFFmpegTextStr (s : String) : String :=
  String.mk (escapeFFmpegText s.data)

/-- Per-character effect of the escaping pipeline. -/
def escUnit (c : Char) : List Char :=
  if c = bsc then [bsc, bsc, bsc, bsc]
  else if c = qc then [qc, bsc, qc, qc]
  else if c = ':' then [bsc, ':']
  else if c = '[' then [bsc, '[']
  else if c = ']' then [bsc, ']']
  else if c = '%' then [bsc, '%']
  else [c]

/-- Backslash-doubling of one character: the residue of the escaping
after the graph-level tokenizer has consumed one escape level. -/
def dbl (c : Char) : List Char := if c = bsc then [bsc, bsc] else [c]

/-- Backslash-doubling of a string. -/
def dblAll : List Char → List Char
  | [] => []
  | c :: l => dbl c ++ dblAll l

/-! ## Word wrapping (wrapText in server.js) -/

/-- Embeds String.prototype.split with a single-character separator:
keeps empty fragments, yields one fragment more than separators. -/
def jsSplit (sep : Char) : List Char → List (List Char)
  | [] => [[]]
  | c :: l =>
    match jsSplit sep l with
    | [] => [[c]]
    | w :: ws => if c = sep then [] :: w :: ws else (c :: w) :: ws

/-- Embeds String.prototype.trim: strip whitespace at both ends. -/
def jsTrim (l : List Char) : List Char :=
  ((l.dropWhile Char.isWhitespace).reverse.dropWhile Char.isWhitespace).reverse

/-- Join a list of words with single spaces, the shape a wrapped line
has after the greedy loop. -/
def joinWords : List (List Char) → List Char
  | [] => []
  | [w] => w
  | w :: ws => w ++ ' ' :: joinWords ws

/-- Greedy accumulation loop of wrapText: state is the finished lines
and the line under construction, exactly as in the source. -/
def wrapLoop (mc : Nat) : List (List Char) → List (List Char) → List Char →
    List (List Char) × List Char
  | [], lines, cur => (lines, cur)
  | w :: ws, lines, cur =>
    let cand := jsTrim (cur ++ ' ' :: w)
    if cand.length ≤ mc then wrapLoop mc ws lines cand
    else wrapLoop mc ws (lines ++ (if cur.isEmpty then [] else [cur])) w

/-- Line list computed by wrapText: early return below the limit,
otherwise the greedy loop over the space-split words, the pending line
appended when nonempty. -/
def wrapLines (text : List Char) (mc : Nat) : List (List Char) :=
  if text.length ≤ mc then [text]
  else
    let r := wrapLoop mc (jsSplit ' ' text) [] []
    r.1 ++ (if r.2.isEmpty then [] else [r.2])

/-- Join lines with the literal two-character marker backslash-n, as
lines.join in the source. -/
def nlJoin : List (List Char) → List Char
  | [] => []
  | [l] => l
  | l :: ls => l ++ bsc :: 'n' :: nlJoin ls

/-- Embeds wrapText from server.js. -/
def wrapText (text : List Char) (mc : Nat) : List Char :=
  nlJoin (wrapLines text mc)

/-- String-level wrapper of wrapText. -/
def wrapTextStr (s : String) (mc : Nat) : String :=
  String.mk (wrapText s.data mc)

/-! ## Request parameters -/

/-- Flat parameter object of the text/watermark variant, after the
destructuring in the request handler. Numbers are embedded as Int. -/
structure Params where
  templateWidth : Int
  templateHeight : Int
  frameX : Int
  frameY : Int
  frameWidth : Int
  frameHeight : Int
  frameRadius : Int
  trimStart : Int
  trimEnd : Int
  imageScale : Int
  imageOffsetX : Int
  imageOffsetY : Int
  text : String
  textSize : Int
  textX : Int
  textY : Int
  overlayText : String
  watermarkX : Int
  watermarkY : Int
  watermarkOpacity : Int
deriving Repr, DecidableEq

/-- Parameter object of the template-overlay variant. -/
structure Params2 where
  templateWidth : Int
  templateHeight : Int
  frameX : Int
  frameY : Int
  frameWidth : Int
  frameHeight : Int
  trimStart : Int
  trimEnd : Int
  imageScale : Int
  imageOffsetX : Int
  imageOffsetY : Int
deriving Repr, DecidableEq

/-! ## Filter-graph builder (buildFilterComplex in server.js) -/

/-- Horizontal placement centre: Math.round(frameCenterX + imageOffsetX)
with frameCenterX = frameX + frameWidth / 2. -/
def videoXOf (p : Params) : Int :=
  jsRound ((p.frameX : ℚ) + (p.frameWidth : ℚ) / 2 + (p.imageOffsetX : ℚ))

/-- Vertical placement centre: Math.round(frameCenterY + imageOffsetY)
with frameCenterY = frameY + frameHeight / 2. -/
def videoYOf (p : Params) : Int :=
  jsRound ((p.frameY : ℚ) + (p.frameHeight : ℚ) / 2 + (p.imageOffsetY : ℚ))

/-- Step 1 of the builder: the cover-scaling stage string. -/
def scaleStage (p : Params) : String :=
  let sf := numToDecStr p.imageScale
  "[0:v]scale=w=" ++ sqs ++ "max(" ++ toString p.frameWidth ++ "*" ++ sf ++
    "\\,ih*" ++ toString p.frameWidth ++ "/" ++ toString p.frameHeight ++ "*" ++ sf ++
    ")" ++ sqs ++ ":h=" ++ sqs ++ "max(" ++ toString p.frameHeight ++ "*" ++ sf ++
    "\\,iw*" ++ toString p.frameHeight ++ "/" ++ toString p.frameWidth ++ "*" ++ sf ++
    ")" ++ sqs ++ ":force_original_aspect_ratio=increase[scaled]"

/-- Step 2a: white background at canvas size. -/
def bgStage (p : Params) : String :=
  "color=white:s=" ++ toString p.templateWidth ++ "x" ++ toString p.templateHeight ++
    ":r=30[bg]"

/-- Step 2b: overlay the scaled source centred at the computed point. -/
def overlayVideoStage (p : Params) : String :=
  "[bg][scaled]overlay=x=" ++ sqs ++ toString (videoXOf p) ++ "-overlay_w/2" ++ sqs ++
    ":y=" ++ sqs ++ toString (videoYOf p) ++ "-overlay_h/2" ++ sqs ++
    ":shortest=1[with_video]"

/-- Step 3a: crop the composite to the frame rectangle. -/
def cropStage (p : Params) : String :=
  "[with_video]crop=" ++ toString p.frameWidth ++ ":" ++ toString p.frameHeight ++
    ":" ++ toString p.frameX ++ ":" ++ toString p.frameY ++ "[cropped]"

/-- Step 3b: a fresh white background at canvas size. -/
def bg2Stage (p : Params) : String :=
  "color=white:s=" ++ toString p.templateWidth ++ "x" ++ toString p.templateHeight ++
    ":r=30[bg2]"

/-- Step 3c: reseat the crop at the frame origin. -/
def reseatStage (p : Params) : String :=
  "[bg2][cropped]overlay=" ++ toString p.frameX ++ ":" ++ toString p.frameY ++
    ":shortest=1[composed]"

/-- Font file used by every drawtext stage. -/
def fontPath : String := "/usr/share/fonts/truetype/dejavu/DejaVuSans-Bold.ttf"

/-- Wrap limit: Math.floor(templateWidth / (textSize * 0.6)). -/
def maxCharsPerLine (p : Params) : Nat :=
  (⌊(p.templateWidth : ℚ) / ((p.textSize : ℚ) * (3/5))⌋).toNat

/-- Truthiness of `text && text.trim()` in the source. -/
def textOn (p : Params) : Bool := !p.text.isEmpty && !p.text.trim.isEmpty

/-- Truthiness of `overlayText && overlayText.trim()` in the source. -/
def overlayOn (p : Params) : Bool := !p.overlayText.isEmpty && !p.overlayText.trim.isEmpty

/-- Step 4: top meme text, escaped then wrapped. -/
def textStage (p : Params) : String :=
  let wrapped := wrapTextStr (escapeFFmpegTextStr p.text) (maxCharsPerLine p)
  "[composed]drawtext=text=" ++ sqs ++ wrapped ++ sqs ++ ":fontfile=" ++ fontPath ++
    ":fontsize=" ++ toString p.textSize ++ ":fontcolor=black:x=(w-text_w)/2:y=" ++
    toString p.textY ++ "[with_text]"

/-- Step 5: uppercase stroked overlay text near the bottom of the frame. -/
def overlayTextStage (p : Params) (label : String) : String :=
  let esc := escapeFFmpegTextStr p.overlayText.toUpper
  "[" ++ label ++ "]drawtext=text=" ++ sqs ++ esc ++ sqs ++ ":fontfile=" ++ fontPath ++
    ":fontsize=" ++ toString (jsRound ((p.templateWidth : ℚ) * (55/1000))) ++
    ":fontcolor=white:borderw=4:bordercolor=black:x=(w-text_w)/2:y=" ++
    toString (p.frameY + p.frameHeight - 80) ++ "[with_overlay]"

/-- Alpha suffix string of the watermark: the clamped opacity percent
divided by 100, printed the JavaScript way. -/
def wmAlphaStr (p : Params) : String :=
  numToDecStr (max 0 (min 100 p.watermarkOpacity))

/-- Step 6: the watermark label, always last; fill and stroke carry
the same alpha suffix. -/
def watermarkStage (p : Params) (label : String) : String :=
  let esc := escapeFFmpegTextStr "SAMOURAIS"
  let a := wmAlphaStr p
  "[" ++ label ++ "]drawtext=text=" ++ sqs ++ esc ++ sqs ++ ":fontfile=" ++ fontPath ++
    ":fontsize=" ++ toString (jsRound ((p.templateWidth : ℚ) * (4/100))) ++
    ":fontcolor=white@" ++ a ++ ":borderw=2:bordercolor=0x333333@" ++ a ++
    ":x=" ++ toString p.watermarkX ++ "-text_w:y=" ++ toString p.watermarkY ++
    "-text_h[final]"

/-- Conditional tail of the stage list: optional top text, optional
overlay text, then the watermark, with the running label threaded as
currentLabel is in the source. -/
def buildFilterTail (p : Params) : List String :=
  (if textOn p then [textStage p] else []) ++
  (if overlayOn p then [overlayTextStage p (if textOn p then "with_text" else "composed")]
   else []) ++
  [watermarkStage p
    (if overlayOn p then "with_overlay" else if textOn p then "with_text" else "composed")]

/-- Ordered stage list assembled by buildFilterComplex. -/
def buildFilterList (p : Params) : List String :=
  scaleStage p :: bgStage p :: overlayVideoStage p :: cropStage p :: bg2Stage p ::
    reseatStage p :: buildFilterTail p

/-- Embeds buildFilterComplex: the stage list joined with semicolons. -/
def buildFilterComplex (p : Params) : String :=
  String.intercalate ";" (buildFilterList p)

/-! ## Template-overlay variant filter graph -/

/-- Horizontal placement centre of the template variant. -/
def videoXOf2 (p : Params2) : Int :=
  jsRound ((p.frameX : ℚ) + (p.frameWidth : ℚ) / 2 + (p.imageOffsetX : ℚ))

/-- Vertical placement centre of the template variant. -/
def videoYOf2 (p : Params2) : Int :=
  jsRound ((p.frameY : ℚ) + (p.frameHeight : ℚ) / 2 + (p.imageOffsetY : ℚ))

/-- Scaled width Math.round(frameWidth * scaleFactor * 1.2) of the
template variant. -/
def scaledWidthOf (p : Params2) : Int :=
  jsRound ((p.frameWidth : ℚ) * ((p.imageScale : ℚ) / 100) * (6/5))

/-- White background stage of the template variant. -/
def bgStage2 (p : Params2) : String :=
  "color=white:s=" ++ toString p.templateWidth ++ "x" ++ toString p.templateHeight ++
    ":r=30[bg]"

/-- Width-only scale stage of the template variant. -/
def scaleStage2 (p : Params2) : String :=
  "[0:v]scale=" ++ toString (scaledWidthOf p) ++ ":-1[scaled]"

/-- Video overlay stage of the template variant. -/
def overlayVideoStage2 (p : Params2) : String :=
  "[bg][scaled]overlay=x=" ++ toString (videoXOf2 p) ++ "-overlay_w/2:y=" ++
    toString (videoYOf2 p) ++ "-overlay_h/2:shortest=1[with_video]"

/-- Template PNG overlay stage, always the last stage. -/
def templateOverlayStage : String := "[with_video][1:v]overlay=0:0:shortest=1[final]"

/-- Ordered stage list of the template variant. -/
def processVideoFilterList (p : Params2) : List String :=
  [bgStage2 p, scaleStage2 p, overlayVideoStage2 p, templateOverlayStage]

/-- Filter graph of the template variant, joined with semicolons. -/
def processVideoFilterComplex (p : Params2) : String :=
  String.intercalate ";" (processVideoFilterList p)

/-! ## Compositor controller (processVideo) and request handler -/

/-- Invocation record handed to the external transcoding engine: the
explicit start time and duration set on the command, the filter graph,
and the fixed output options. -/
structure FfmpegCommand where
  inputs : List String
  startTime : Int
  duration : Int
  filterGraph : String
  finalLabel : String
  outputOptions : List String
  outputPath : String
deriving Repr, DecidableEq

/-- Fixed output options of the text/watermark variant, in source
order. -/
def serverOutputOptions : List String :=
  ["-map", "[final]", "-map", "0:a?", "-c:v", "libx264", "-preset", "fast",
   "-crf", "23", "-c:a", "aac", "-b:a", "128k", "-ar", "44100",
   "-movflags", "+faststart", "-pix_fmt", "yuv420p", "-r", "30", "-shortest"]

/-- Fixed output options of the template-overlay variant. -/
def templateOutputOptions : List String :=
  ["-map", "0:a?", "-c:v", "libx264", "-preset", "fast",
   "-crf", "23", "-c:a", "aac", "-b:a", "128k", "-ar", "44100",
   "-movflags", "+faststart", "-pix_fmt", "yuv420p", "-r", "30", "-shortest"]

/-- Embeds processVideo of server.js: one input, setStartTime with the
trim start, setDuration with trimEnd - trimStart, the filter graph and
the fixed options. -/
def processVideoCmd (inputPath outputPath : String) (trimStart trimEnd : Int)
    (filters : String) : FfmpegCommand :=
  ⟨[inputPath], trimStart, trimEnd - trimStart, filters, "final",
    serverOutputOptions, outputPath⟩

/-- Embeds processVideo of the template-overlay variant: video and
template inputs, the same explicit start time and duration. -/
def processVideoCmd2 (videoPath templatePath outputPath : String)
    (p : Params2) : FfmpegCommand :=
  ⟨[videoPath, templatePath], p.trimStart, p.trimEnd - p.trimStart,
    processVideoFilterComplex p, "final", templateOutputOptions, outputPath⟩

/-- Parameter object before the defaults of the destructuring are
applied: a missing field is none, as an absent JSON key. -/
structure PartialParams where
  templateWidth : Option Int
  templateHeight : Option Int
  frameX : Option Int
  frameY : Option Int
  frameWidth : Option Int
  frameHeight : Option Int
  frameRadius : Option Int
  trimStart : Option Int
  trimEnd : Option Int
  imageScale : Option Int
  imageOffsetX : Option Int
  imageOffsetY : Option Int
  text : Option String
  textSize : Option Int
  textX : Option Int
  textY : Option Int
  overlayText : Option String
  watermarkX : Option Int
  watermarkY : Option Int
  watermarkOpacity : Option Int
deriving Repr, DecidableEq

/-- Parameter object parsed from the empty JSON object: every field
absent. -/
def emptyPartial : PartialParams :=
  ⟨none, none, none, none, none, none, none, none, none, none,
   none, none, none, none, none, none, none, none, none, none⟩

/-- Embeds the destructuring with inline defaults in the request
handler. -/
def applyDefaults (pp : PartialParams) : Params :=
  ⟨pp.templateWidth.getD 1080, pp.templateHeight.getD 1080,
   pp.frameX.getD 54, pp.frameY.getD 195,
   pp.frameWidth.getD 972, pp.frameHeight.getD 810, pp.frameRadius.getD 27,
   pp.trimStart.getD 0, pp.trimEnd.getD 10,
   pp.imageScale.getD 100, pp.imageOffsetX.getD 0, pp.imageOffsetY.getD 0,
   pp.text.getD "", pp.textSize.getD 42, pp.textX.getD 54, pp.textY.getD 40,
   pp.overlayText.getD "", pp.watermarkX.getD 1010, pp.watermarkY.getD 1040,
   pp.watermarkOpacity.getD 100⟩

/-- Documented default parameter object of the endpoint. -/
def defaultParams : Params :=
  ⟨1080, 1080, 54, 195, 972, 810, 27, 0, 10, 100, 0, 0,
   "", 42, 54, 40, "", 1010, 1040, 100⟩

/-- Default parameter object of the template-overlay variant. -/
def defaultParams2 : Params2 :=
  ⟨1080, 1080, 54, 195, 972, 810, 0, 10, 100, 0, 0⟩

/-- Embeds JSON.parse(req.body.params or the empty object) followed by
the destructuring: an absent field parses the empty object, a present
field either fails with the parse error or yields the partial object. -/
def parseParams : Option (Except String PartialParams) → Except String Params
  | none => .ok (applyDefaults emptyPartial)
  | some (.error m) => .error m
  | some (.ok pp) => .ok (applyDefaults pp)

/-- Output path reserved by the handler before the try block. -/
def outputPathOf (outputId : String) : String :=
  "/tmp/outputs/" ++ outputId ++ ".mp4"

/-- Observable outcome of one request: HTTP status, error message of
the JSON body if any, the engine invocation if one happened, and the
file list handed to cleanupFiles. -/
structure HandlerResult where
  status : Nat
  errorMsg : Option String
  invoked : Option FfmpegCommand
  cleaned : List String
deriving Repr, DecidableEq

/-- Embeds the process-video request handler of server.js. The missing
upload is rejected with 400 before any temp path is involved; inside
the try block the parameters are parsed, the filter graph is built and
the engine is invoked; the catch path and the download callback both
hand the temp input and the reserved output to cleanupFiles. The
download callback only logs a download error, so the result does not
depend on it. -/
def processVideoHandler (hasFile : Bool) (inputPath outputId : String)
    (paramsField : Option (Except String PartialParams))
    (engine : FfmpegCommand → Except String Unit)
    (downloadError : Bool) : HandlerResult :=
  if !hasFile then ⟨400, some "No video file uploaded", none, []⟩
  else
    let outputPath := outputPathOf outputId
    match parseParams paramsField with
    | .error msg => ⟨500, some msg, none, [inputPath, outputPath]⟩
    | .ok p =>
      let cmd := processVideoCmd inputPath outputPath p.trimStart p.trimEnd
        (buildFilterComplex p)
      match engine cmd with
      | .error msg => ⟨500, some msg, some cmd, [inputPath, outputPath]⟩
      | .ok _ => ⟨200, none, some cmd, [inputPath, outputPath]⟩

/-- Embeds cleanupFiles: iterate over the list; a falsy entry is
skipped, a missing file or throwing unlink is caught per file, so the
routine always returns a log pairing every file with its optional
deletion error. The unlink behaviour of the filesystem is a parameter;
a nonexistent file is modelled as a successful no-op. -/
def cleanupFiles (fsUnlink : String → Except String Unit)
    (files : List String) : List (String × Option String) :=
  files.map (fun f =>
    if f.isEmpty then (f, none)
    else match fsUnlink f with
      | .ok _ => (f, none)
      | .error e => (f, some e))

/-! ## Models of documented external-engine behaviour -/

/-- Modelled engine behaviour: the filter-graph option-value tokenizer
(av_get_token with terminator colon). Outside quotes a colon ends the
token; a single quote toggles the quoted state; a backslash makes the
next character literal in both states. Returns the token value and the
unconsumed remainder. -/
def avGetToken : Bool → List Char → Option (List Char × List Char)
  | inQ, [] => if inQ then none else some ([], [])
  | inQ, c :: l =>
    if c = bsc then
      match l with
      | [] => none
      | d :: l2 => (avGetToken inQ l2).map (fun r => (d :: r.1, r.2))
    else if c = qc then avGetToken (!inQ) l
    else if !inQ && c = ':' then some ([], c :: l)
    else (avGetToken inQ l).map (fun r => (c :: r.1, r.2))

/-- Modelled engine behaviour: the drawtext text unescape, where a
backslash makes the next character literal. -/
def drawtextUnescape : List Char → List Char
  | [] => []
  | c :: l =>
    if c = bsc then
      match l with
      | [] => []
      | d :: l2 => d :: drawtextUnescape l2
    else c :: drawtextUnescape l

/-- Structural characters of the filter-graph option syntax that must
never occur bare in an escaped value. -/
def isStructuralChar (c : Char) : Bool :=
  c = ':' || c = '[' || c = ']' || c = '%'

/-- Scanner for the escaped-form property: true when every colon,
bracket and percent in the list is consumed as the character following
a backslash, never bare. -/
def guarded : List Char → Bool
  | [] => true
  | c :: l =>
    if c = bsc then
      match l with
      | [] => true
      | _ :: l2 => guarded l2
    else if isStructuralChar c then false
    else guarded l

/-- Substring test on character lists. -/
def hasSub (needle : List Char) : List Char → Bool
  | [] => needle.isEmpty
  | c :: l => needle.isPrefixOf (c :: l) || hasSub needle l

/-- Modelled engine behaviour: the scale filter invoked with explicit
width and height expressions and force_original_aspect_ratio=increase
keeps the input aspect ratio and increases a dimension if needed, so
the output width is the larger of the requested width and the width
induced by the requested height. Requested width expression of the
cover-scaling stage: max(frameWidth*sf, ih*frameWidth/frameHeight*sf). -/
def scaleExprW (p : Params) (iw ih : ℚ) : ℚ :=
  max ((p.frameWidth : ℚ) * ((p.imageScale : ℚ) / 100))
    (ih * (p.frameWidth : ℚ) / (p.frameHeight : ℚ) * ((p.imageScale : ℚ) / 100))

/-- Requested height expression of the cover-scaling stage:
max(frameHeight*sf, iw*frameHeight/frameWidth*sf). -/
def scaleExprH (p : Params) (iw ih : ℚ) : ℚ :=
  max ((p.frameHeight : ℚ) * ((p.imageScale : ℚ) / 100))
    (iw * (p.frameHeight : ℚ) / (p.frameWidth : ℚ) * ((p.imageScale : ℚ) / 100))

/-- Output width of the cover-scaling stage under the increase mode. -/
def coverOutW (p : Params) (iw ih : ℚ) : ℚ :=
  max (scaleExprW p iw ih) (scaleExprH p iw ih * iw / ih)

/-- Output height of the cover-scaling stage under the increase mode:
derived from the output width by the input aspect ratio. -/
def coverOutH (p : Params) (iw ih : ℚ) : ℚ :=
  coverOutW p iw ih * ih / iw

/-- Modelled engine behaviour: the width-only scale stage of the
template variant (scale=W:-1) yields height W*ih/iw, preserving the
input aspect ratio with no lower bound from the frame. -/
def templateScaledHeight (p : Params2) (iw ih : ℚ) : ℚ :=
  (scaledWidthOf p : ℚ) * ih / iw

/-! ## Derived parameter constructions used by the theorems -/

/-- The same request with both placement offsets set to zero. -/
def withZeroOffset (p : Params) : Params :=
  ⟨p.templateWidth, p.templateHeight, p.frameX, p.frameY, p.frameWidth,
   p.frameHeight, p.frameRadius, p.trimStart, p.trimEnd, p.imageScale, 0, 0,
   p.text, p.textSize, p.textX, p.textY, p.overlayText, p.watermarkX,
   p.watermarkY, p.watermarkOpacity⟩

/-- The same request with a different canvas size. -/
def withCanvas (p : Params) (w h : Int) : Params :=
  ⟨w, h, p.frameX, p.frameY, p.frameWidth,
   p.frameHeight, p.frameRadius, p.trimStart, p.trimEnd, p.imageScale,
   p.imageOffsetX, p.imageOffsetY,
   p.text, p.textSize, p.textX, p.textY, p.overlayText, p.watermarkX,
   p.watermarkY, p.watermarkOpacity⟩

/-- Clamped watermark alpha as the engine reads the at-sign suffix. -/
def wmOpacityOf (x : Int) : ℚ := max 0 (min 1 ((x : ℚ) / 100))

/-- A deliberately invalid parameter object: negative frame dimensions,
inverted trim window, negative scale percent. -/
def invalidRequestParams : PartialParams :=
  ⟨none, none, none, none, some (-10), some (-5), none, some 5, some 0,
   some (-50), none, none, none, none, none, none, none, none, none, none⟩

/-- Handler outcome on the invalid parameter object with an engine
that accepts the job. -/
def invalidRequestResult : HandlerResult :=
  processVideoHandler true "upload.mp4" "job1"
    (some (.ok invalidRequestParams)) (fun _ => .ok ()) false

/-! ## Numeric evaluations at the default parameters -/

theorem scaledWidthOf_default : scaledWidthOf defaultParams2 = 1166 := by
  norm_num [scaledWidthOf, defaultParams2, jsRound]

theorem videoXOf2_default : videoXOf2 defaultParams2 = 540 := by
  norm_num [videoXOf2, defaultParams2, jsRound]

theorem videoYOf2_default : videoYOf2 defaultParams2 = 600 := by
  norm_num [videoYOf2, defaultParams2, jsRound]

/-- Literal value of the template-variant filter graph at the default
parameters. -/
theorem templateFilterComplex_default :
    processVideoFilterComplex defaultParams2 =
      "color=white:s=1080x1080:r=30[bg];[0:v]scale=1166:-1[scaled];" ++
      "[bg][scaled]overlay=x=540-overlay_w/2:y=600-overlay_h/2:shortest=1[with_video];" ++
      "[with_video][1:v]overlay=0:0:shortest=1[final]" := by
  simp only [processVideoFilterComplex, processVideoFilterList, bgStage2,
    scaleStage2, overlayVideoStage2, templateOverlayStage,
    scaledWidthOf_default, videoXOf2_default, videoYOf2_default]
  rfl

/-! ## Small facts about the cleanup routine -/

theorem cleanupFiles_entry (fsUnlink : String → Except String Unit) (f : String) :
    ((if f.isEmpty then (f, (none : Option String))
      else match fsUnlink f with
        | .ok _ => (f, none)
        | .error e => (f, some e)).1) = f := by
  by_cases h : f.isEmpty
  · simp [h]
  · cases h2 : fsUnlink f <;> simp [h, h2]

theorem cleanupFiles_covers (fsUnlink : String → Except String Unit)
    (files : List String) :
    (cleanupFiles fsUnlink files).map Prod.fst = files := by
  induction files with
  | nil => rfl
  | cons f fs ih =>
    simp only [cleanupFiles, List.map_cons] at ih ⊢
    exact congrArg₂ List.cons (cleanupFiles_entry fsUnlink f) ih

/-! ## Claims -/

/-- C1: on every exit path of the process-video handler of a job —
success after the bytes are handed over, parameter parsing error,
engine invocation error, and independently of a download error — the
temp input and the temp output are the exact list handed to
cleanupFiles, and cleanupFiles processes every file, recording a
deletion error in its log instead of propagating it. -/
theorem cleanup_on_every_exit_path :
    ∀ (inputPath outputId : String)
      (field : Option (Except String PartialParams))
      (engine : FfmpegCommand → Except String Unit) (dl : Bool)
      (fsUnlink : String → Except String Unit) (files : List String),
    (processVideoHandler true inputPath outputId field engine dl).cleaned
        = [inputPath, outputPathOf outputId]
    ∧ (cleanupFiles fsUnlink files).map Prod.fst = files := by
  intro inputPath outputId field engine dl fsUnlink files
  refine ⟨?_, cleanupFiles_covers fsUnlink files⟩
  unfold processVideoHandler
  cases hp : parseParams field with
  | error m => simp [hp]
  | ok p =>
    cases he : engine (processVideoCmd inputPath (outputPathOf outputId)
        p.trimStart p.trimEnd (buildFilterComplex p)) <;> simp [hp, he]

/-- C10: a params field that fails JSON parsing makes the handler
answer 500 with the parse error message (no 400 validation answer),
with the temp upload and the reserved output path still handed to
cleanup; an absent params field parses as the empty object, and the
job proceeds with exactly the documented defaults. -/
theorem invalid_params_json_rejected_500_with_cleanup :
    ∀ (inputPath outputId msg : String)
      (engine : FfmpegCommand → Except String Unit) (dl dl2 : Bool),
    processVideoHandler true inputPath outputId (some (.error msg)) engine dl
        = ⟨500, some msg, none, [inputPath, outputPathOf outputId]⟩
    ∧ (processVideoHandler true inputPath outputId none engine dl2).invoked
        = some (processVideoCmd inputPath (outputPathOf outputId) 0 10
            (buildFilterComplex defaultParams))
    ∧ applyDefaults emptyPartial = defaultParams := by
  intro inputPath outputId msg engine dl dl2
  refine ⟨by simp [processVideoHandler, parseParams], ?_, rfl⟩
  simp only [processVideoHandler, parseParams, Bool.not_true, Bool.false_eq_true,
    if_false]
  have hae : applyDefaults emptyPartial = defaultParams := rfl
  rw [hae]
  have h0 : defaultParams.trimStart = 0 := rfl
  have h10 : defaultParams.trimEnd = 10 := rfl
  rw [h0, h10]
  cases he : engine (processVideoCmd inputPath (outputPathOf outputId) 0 10
      (buildFilterComplex defaultParams)) <;> simp [he]

/-- C4 counterexample: a request whose parameters have negative frame
dimensions, an inverted trim window and a negative scale percent is
not rejected: the handler reaches the engine, reports success, and the
engine was handed the inverted window as a negative duration. -/
theorem no_validation_counterexample :
    invalidRequestResult.status = 200
    ∧ invalidRequestResult.errorMsg = none
    ∧ invalidRequestResult.invoked.isSome = true
    ∧ (applyDefaults invalidRequestParams).trimEnd
        - (applyDefaults invalidRequestParams).trimStart = -5 := by
  exact ⟨rfl, rfl, rfl, rfl⟩

/-- C4 amended: the handler performs no parameter validation at all:
for every parameter object, however malformed its numbers, the stage
list is built and the engine is invoked with it, and the response
status is never the 400 validation status (it is decided by the engine
outcome alone). -/
theorem handler_never_validates_params :
    ∀ (inputPath outputId : String) (pp : PartialParams)
      (engine : FfmpegCommand → Except String Unit) (dl : Bool),
    (processVideoHandler true inputPath outputId (some (.ok pp)) engine dl).invoked
        = some (processVideoCmd inputPath (outputPathOf outputId)
            (applyDefaults pp).trimStart (applyDefaults pp).trimEnd
            (buildFilterComplex (applyDefaults pp)))
    ∧ (processVideoHandler true inputPath outputId (some (.ok pp)) engine dl).status
        ≠ 400 := by
  intro inputPath outputId pp engine dl
  unfold processVideoHandler
  cases he : engine (processVideoCmd inputPath (outputPathOf outputId)
      (applyDefaults pp).trimStart (applyDefaults pp).trimEnd
      (buildFilterComplex (applyDefaults pp))) <;>
    simp [parseParams, he]

/-- C2 counterexample: both controllers keep stop-at-shortest
semantics in play: the stop-at-shortest output flag is part of every
invocation, and the template-variant graph carries shortest=1 inside
its overlay stages, so the explicit duration is only an upper bound
rather than making the output independent of stream lengths. -/
theorem shortest_semantics_retained_counterexample :
    "-shortest" ∈ (processVideoCmd2 "video.mp4" "template.png" "out.mp4"
        defaultParams2).outputOptions
    ∧ hasSub "shortest=1".data (processVideoFilterComplex defaultParams2).data = true
    ∧ "-shortest" ∈ (processVideoCmd "upload.mp4" "out.mp4" 0 10
        "graph").outputOptions := by
  rw [templateFilterComplex_default]
  exact ⟨by decide, by decide, by decide⟩

/-- C2 amended: both variants hand the engine an explicit start time
equal to the trim start and an explicit duration equal to
trimEnd - trimStart, bounding the output from above; but both also
keep the stop-at-shortest output flag, so the output may still end
earlier with a short stream. -/
theorem trim_window_explicit_in_command :
    ∀ (inputPath outputPath videoPath templatePath : String)
      (trimStart trimEnd : Int) (filters : String) (p2 : Params2),
    (processVideoCmd inputPath outputPath trimStart trimEnd filters).startTime
        = trimStart
    ∧ (processVideoCmd inputPath outputPath trimStart trimEnd filters).duration
        = trimEnd - trimStart
    ∧ "-shortest" ∈ (processVideoCmd inputPath outputPath trimStart trimEnd
        filters).outputOptions
    ∧ (processVideoCmd2 videoPath templatePath outputPath p2).startTime
        = p2.trimStart
    ∧ (processVideoCmd2 videoPath templatePath outputPath p2).duration
        = p2.trimEnd - p2.trimStart
    ∧ "-shortest" ∈ (processVideoCmd2 videoPath templatePath outputPath
        p2).outputOptions := by
  intro inputPath outputPath videoPath templatePath trimStart trimEnd filters p2
  refine ⟨rfl, rfl, ?_, rfl, rfl, ?_⟩
  · show "-shortest" ∈ serverOutputOptions
    decide
  · show "-shortest" ∈ templateOutputOptions
    decide

/-- C3 counterexample: the template-overlay variant builds a
four-stage graph with no crop stage at all; it relies on the template
image to mask overflow instead of the crop-then-reseat pair. -/
theorem template_variant_builds_no_crop_stage :
    hasSub "crop".data (processVideoFilterComplex defaultParams2).data = false
    ∧ (processVideoFilterList defaultParams2).length = 4 := by
  rw [templateFilterComplex_default]
  exact ⟨by decide, rfl⟩

/-- C3 amended: in the text/watermark variant the stage list always
contains, at fixed positions, a stage cropping the composite to
exactly frameWidth by frameHeight at (frameX, frameY), immediately
followed by a fresh canvas-sized background and a stage reseating the
crop at (frameX, frameY) on it; the template-overlay variant has no
crop stage and masks with the template image instead. -/
theorem crop_then_reseat :
    ∀ p : Params,
    (buildFilterList p).get? 3
        = some ("[with_video]crop=" ++ toString p.frameWidth ++ ":" ++
            toString p.frameHeight ++ ":" ++ toString p.frameX ++ ":" ++
            toString p.frameY ++ "[cropped]")
    ∧ (buildFilterList p).get? 4
        = some ("color=white:s=" ++ toString p.templateWidth ++ "x" ++
            toString p.templateHeight ++ ":r=30[bg2]")
    ∧ (buildFilterList p).get? 5
        = some ("[bg2][cropped]overlay=" ++ toString p.frameX ++ ":" ++
            toString p.frameY ++ ":shortest=1[composed]") := by
  intro p
  exact ⟨rfl, rfl, rfl⟩

/-- C5: the overlay stage places the scaled source centred at
Math.round(frameCenter + offset) on each axis; with offsets zero the
centre is exactly the rounded frame centre, and the placement never
depends on the canvas dimensions, so a frame away from the canvas
centre keeps its own centre. -/
theorem overlay_centered_on_frame_center :
    ∀ (p : Params) (w h : Int),
    (buildFilterList p).get? 2
        = some ("[bg][scaled]overlay=x=" ++ sqs ++
            toString (jsRound ((p.frameX : ℚ) + (p.frameWidth : ℚ) / 2 +
              (p.imageOffsetX : ℚ))) ++ "-overlay_w/2" ++ sqs ++ ":y=" ++ sqs ++
            toString (jsRound ((p.frameY : ℚ) + (p.frameHeight : ℚ) / 2 +
              (p.imageOffsetY : ℚ))) ++ "-overlay_h/2" ++ sqs ++
            ":shortest=1[with_video]")
    ∧ videoXOf (withZeroOffset p) = jsRound ((p.frameX : ℚ) + (p.frameWidth : ℚ) / 2)
    ∧ videoYOf (withZeroOffset p) = jsRound ((p.frameY : ℚ) + (p.frameHeight : ℚ) / 2)
    ∧ videoXOf (withCanvas p w h) = videoXOf p
    ∧ videoYOf (withCanvas p w h) = videoYOf p := by
  intro p w h
  refine ⟨rfl, ?_, ?_, rfl, rfl⟩
  · simp [videoXOf, withZeroOffset]
  · simp [videoYOf, withZeroOffset]

/-- C9: the watermark alpha read by the engine from the at-sign suffix
is the opacity clamped into the unit range: it is 0 at opacity 0, 1 at
opacity 100, stays within the unit interval, is monotone in the
opacity, equals the value obtained by clamping to the 0 to 100 range
before the conversion, and the watermark stage carries the very same
alpha string for the fill colour and the stroke colour. -/
theorem watermark_opacity_clamped_monotone :
    ∀ (x y : Int) (p : Params) (label : String),
    wmOpacityOf 0 = 0 ∧ wmOpacityOf 100 = 1
    ∧ 0 ≤ wmOpacityOf x ∧ wmOpacityOf x ≤ 1
    ∧ (x ≤ y → wmOpacityOf x ≤ wmOpacityOf y)
    ∧ wmOpacityOf x = ((max 0 (min 100 x) : Int) : ℚ) / 100
    ∧ watermarkStage p label =
        "[" ++ label ++ "]drawtext=text=" ++ sqs ++ escapeFFmpegTextStr "SAMOURAIS"
          ++ sqs ++ ":fontfile=" ++ fontPath ++ ":fontsize=" ++
          toString (jsRound ((p.templateWidth : ℚ) * (4/100))) ++
          ":fontcolor=white@" ++ wmAlphaStr p ++ ":borderw=2:bordercolor=0x333333@"
          ++ wmAlphaStr p ++ ":x=" ++ toString p.watermarkX ++ "-text_w:y=" ++
          toString p.watermarkY ++ "-text_h[final]" := by
  intro x y p label
  refine ⟨by norm_num [wmOpacityOf], by norm_num [wmOpacityOf], ?_, ?_, ?_, ?_, rfl⟩
  · exact le_max_left 0 _
  · exact max_le (by norm_num) (min_le_left _ _)
  · intro hxy
    have hc : (x : ℚ) / 100 ≤ (y : ℚ) / 100 := by
      have : (x : ℚ) ≤ (y : ℚ) := by exact_mod_cast hxy
      linarith
    exact max_le_max le_rfl (min_le_min le_rfl hc)
  · unfold wmOpacityOf
    push_cast
    rw [← max_div_div_right (by norm_num : (0:ℚ) ≤ 100),
      ← min_div_div_right (by norm_num : (0:ℚ) ≤ 100)]
    norm_num

/-- Witness for the opacity claim at concrete opacities. -/
theorem watermark_opacity_clamped_monotone_witness :
    wmOpacityOf 30 ≤ wmOpacityOf 60 ∧ wmOpacityOf 0 = 0 :=
  ⟨(watermark_opacity_clamped_monotone 30 60 defaultParams "composed").2.2.2.2.1
      (by norm_num),
   (watermark_opacity_clamped_monotone 30 60 defaultParams "composed").1⟩

/-- C6 counterexample: the template-overlay variant scales by width
only (1.2 times the frame width at scale 100), so a 1920 by 1080
source at the default geometry is scaled to 1166 wide and 655.875
tall, strictly shorter than the 810-pixel frame: the scaled source is
not at least as large as the frame in both dimensions. -/
theorem template_scale_not_covering_counterexample :
    templateScaledHeight defaultParams2 1920 1080 < (defaultParams2.frameHeight : ℚ)
    ∧ scaleStage2 defaultParams2 = "[0:v]scale=1166:-1[scaled]" := by
  constructor
  · unfold templateScaledHeight
    rw [scaledWidthOf_default]
    norm_num [defaultParams2]
  · simp only [scaleStage2, scaledWidthOf_default]
    rfl

/-- C6 amended: in the text/watermark variant the scaling stage has
cover semantics: whenever the input dimensions and the frame are
positive and the scale factor nonnegative, the stage output is at
least frameWidth*s wide and at least frameHeight*s tall while keeping
the input aspect ratio; the template-overlay variant scales by width
alone and does not bound the height from below. -/
theorem cover_scale_covers_frame :
    ∀ (p : Params) (iw ih : ℚ),
    0 < iw → 0 < ih → 0 < (p.frameWidth : ℚ) → 0 < (p.frameHeight : ℚ) →
    0 ≤ (p.imageScale : ℚ) / 100 →
    (p.frameWidth : ℚ) * ((p.imageScale : ℚ) / 100) ≤ coverOutW p iw ih
    ∧ (p.frameHeight : ℚ) * ((p.imageScale : ℚ) / 100) ≤ coverOutH p iw ih
    ∧ coverOutW p iw ih * ih = coverOutH p iw ih * iw := by
  intro p iw ih hiw hih hfw hfh hs
  refine ⟨?_, ?_, ?_⟩
  · exact le_trans (le_max_left _ _) (le_max_left _ _)
  · have h1 : (p.frameHeight : ℚ) * ((p.imageScale : ℚ) / 100)
        ≤ scaleExprH p iw ih := le_max_left _ _
    have h2 : scaleExprH p iw ih * iw / ih ≤ coverOutW p iw ih := le_max_right _ _
    have h3 : scaleExprH p iw ih = scaleExprH p iw ih * iw / ih * ih / iw := by
      field_simp
    have h4 : scaleExprH p iw ih * iw / ih * ih / iw
        ≤ coverOutW p iw ih * ih / iw := by
      gcongr
    unfold coverOutH
    calc (p.frameHeight : ℚ) * ((p.imageScale : ℚ) / 100)
        ≤ scaleExprH p iw ih := h1
      _ = scaleExprH p iw ih * iw / ih * ih / iw := h3
      _ ≤ coverOutW p iw ih * ih / iw := h4
  · unfold coverOutH
    field_simp

/-- Witness for the cover-scaling claim: the default frame with a
1920 by 1080 source. -/
theorem cover_scale_covers_frame_witness :
    (defaultParams.frameWidth : ℚ) * ((defaultParams.imageScale : ℚ) / 100)
        ≤ coverOutW defaultParams 1920 1080
    ∧ (defaultParams.frameHeight : ℚ) * ((defaultParams.imageScale : ℚ) / 100)
        ≤ coverOutH defaultParams 1920 1080
    ∧ coverOutW defaultParams 1920 1080 * 1080
        = coverOutH defaultParams 1920 1080 * 1920 :=
  cover_scale_covers_frame defaultParams 1920 1080 (by norm_num) (by norm_num)
    (by norm_num [defaultParams]) (by norm_num [defaultParams])
    (by norm_num [defaultParams])

/-! ## Structure of the escaping pipeline -/

theorem replaceChar_append (c : Char) (r a b : List Char) :
    replaceChar c r (a ++ b) = replaceChar c r a ++ replaceChar c r b := by
  induction a with
  | nil => rfl
  | cons x xs ih => simp [replaceChar, ih, List.append_assoc]

theorem escapeFFmpegText_append (a b : List Char) :
    escapeFFmpegText (a ++ b) = escapeFFmpegText a ++ escapeFFmpegText b := by
  simp [escapeFFmpegText, replaceChar_append]

theorem escapeFFmpegText_cons (c : Char) (l : List Char) :
    escapeFFmpegText (c :: l) = escUnit c ++ escapeFFmpegText l := by
  have h : escapeFFmpegText (c :: l) = escapeFFmpegText [c] ++ escapeFFmpegText l := by
    simpa using escapeFFmpegText_append [c] l
  rw [h]
  congr 1
  by_cases h1 : c = bsc
  · subst h1; decide
  by_cases h2 : c = qc
  · subst h2; decide
  by_cases h3 : c = ':'
  · subst h3; decide
  by_cases h4 : c = '['
  · subst h4; decide
  by_cases h5 : c = ']'
  · subst h5; decide
  by_cases h6 : c = '%'
  · subst h6; decide
  simp [escapeFFmpegText, replaceChar, escUnit, h1, h2, h3, h4, h5, h6]

theorem avGetToken_quote (inQ : Bool) (l : List Char) :
    avGetToken inQ (qc :: l) = avGetToken (!inQ) l := by
  conv_lhs => rw [avGetToken.eq_def]
  have h1 : ¬(qc = bsc) := by decide
  simp [h1]

theorem avGetToken_colon (l : List Char) :
    avGetToken false (':' :: l) = some ([], ':' :: l) := by
  conv_lhs => rw [avGetToken.eq_def]
  have h1 : ¬((':' : Char) = bsc) := by decide
  have h2 : ¬((':' : Char) = qc) := by decide
  simp [h1, h2]

theorem avGetToken_esc (inQ : Bool) (d : Char) (l : List Char) :
    avGetToken inQ (bsc :: d :: l)
      = (avGetToken inQ l).map (fun r => (d :: r.1, r.2)) := by
  conv_lhs => rw [avGetToken.eq_def]
  simp

theorem avGetToken_true_other (c : Char) (l : List Char)
    (h1 : c ≠ bsc) (h2 : c ≠ qc) :
    avGetToken true (c :: l) = (avGetToken true l).map (fun r => (c :: r.1, r.2)) := by
  conv_lhs => rw [avGetToken.eq_def]
  simp [h1, h2]

theorem avGetToken_escUnit (c : Char) (l : List Char) :
    avGetToken true (escUnit c ++ l)
      = (avGetToken true l).map (fun r => (dbl c ++ r.1, r.2)) := by
  by_cases h1 : c = bsc
  · subst h1
    show avGetToken true (bsc :: bsc :: bsc :: bsc :: l) = _
    rw [avGetToken_esc, avGetToken_esc]
    cases hres : avGetToken true l <;> simp [hres, dbl]
  by_cases h2 : c = qc
  · subst h2
    show avGetToken true (qc :: bsc :: qc :: qc :: l) = _
    rw [avGetToken_quote, avGetToken_esc, avGetToken_quote]
    have hq : ¬(qc = bsc) := by decide
    cases hres : avGetToken true l <;> simp [hres, dbl, hq]
  by_cases h3 : c = ':'
  · subst h3
    show avGetToken true (bsc :: ':' :: l) = _
    rw [avGetToken_esc]
    have hc : ¬((':' : Char) = bsc) := by decide
    cases hres : avGetToken true l <;> simp [hres, dbl, hc]
  by_cases h4 : c = '['
  · subst h4
    show avGetToken true (bsc :: '[' :: l) = _
    rw [avGetToken_esc]
    have hc : ¬(('[' : Char) = bsc) := by decide
    cases hres : avGetToken true l <;> simp [hres, dbl, hc]
  by_cases h5 : c = ']'
  · subst h5
    show avGetToken true (bsc :: ']' :: l) = _
    rw [avGetToken_esc]
    have hc : ¬((']' : Char) = bsc) := by decide
    cases hres : avGetToken true l <;> simp [hres, dbl, hc]
  by_cases h6 : c = '%'
  · subst h6
    show avGetToken true (bsc :: '%' :: l) = _
    rw [avGetToken_esc]
    have hc : ¬(('%' : Char) = bsc) := by decide
    cases hres : avGetToken true l <;> simp [hres, dbl, hc]
  · have hu : escUnit c = [c] := by simp [escUnit, h1, h2, h3, h4, h5, h6]
    rw [hu]
    show avGetToken true (c :: l) = _
    rw [avGetToken_true_other c l h1 h2]
    cases hres : avGetToken true l <;> simp [hres, dbl, h1]

theorem avGetToken_escaped (s l : List Char) :
    avGetToken true (escapeFFmpegText s ++ l)
      = (avGetToken true l).map (fun r => (dblAll s ++ r.1, r.2)) := by
  induction s with
  | nil =>
    cases h : avGetToken true l <;>
      simp [escapeFFmpegText, replaceChar, h, dblAll]
  | cons c s ih =>
    rw [escapeFFmpegText_cons, List.append_assoc, avGetToken_escUnit, ih]
    cases h : avGetToken true l <;> simp [h, dblAll, List.append_assoc]

theorem drawtextUnescape_esc (d : Char) (l : List Char) :
    drawtextUnescape (bsc :: d :: l) = d :: drawtextUnescape l := by
  conv_lhs => rw [drawtextUnescape.eq_def]
  simp

theorem drawtextUnescape_other (c : Char) (l : List Char) (h : c ≠ bsc) :
    drawtextUnescape (c :: l) = c :: drawtextUnescape l := by
  conv_lhs => rw [drawtextUnescape.eq_def]
  simp [h]

theorem drawtextUnescape_dblAll (s : List Char) :
    drawtextUnescape (dblAll s) = s := by
  induction s with
  | nil => rfl
  | cons c s ih =>
    by_cases h : c = bsc
    · subst h
      show drawtextUnescape (bsc :: bsc :: dblAll s) = _
      rw [drawtextUnescape_esc, ih]
    · have hd : dbl c = [c] := by simp [dbl, h]
      show drawtextUnescape (dbl c ++ dblAll s) = _
      rw [hd]
      show drawtextUnescape (c :: dblAll s) = _
      rw [drawtextUnescape_other c _ h, ih]

theorem guarded_esc (d : Char) (l : List Char) :
    guarded (bsc :: d :: l) = guarded l := by
  conv_lhs => rw [guarded.eq_def]
  simp

theorem guarded_other (c : Char) (l : List Char) (h1 : c ≠ bsc)
    (h2 : isStructuralChar c = false) :
    guarded (c :: l) = guarded l := by
  conv_lhs => rw [guarded.eq_def]
  simp [h1, h2]

theorem guarded_escUnit (c : Char) (l : List Char) :
    guarded (escUnit c ++ l) = guarded l := by
  by_cases h1 : c = bsc
  · subst h1
    show guarded (bsc :: bsc :: bsc :: bsc :: l) = _
    rw [guarded_esc, guarded_esc]
  by_cases h2 : c = qc
  · subst h2
    show guarded (qc :: bsc :: qc :: qc :: l) = _
    rw [guarded_other qc _ (by decide) (by decide), guarded_esc,
      guarded_other qc _ (by decide) (by decide)]
  by_cases h3 : c = ':'
  · subst h3
    show guarded (bsc :: ':' :: l) = _
    rw [guarded_esc]
  by_cases h4 : c = '['
  · subst h4
    show guarded (bsc :: '[' :: l) = _
    rw [guarded_esc]
  by_cases h5 : c = ']'
  · subst h5
    show guarded (bsc :: ']' :: l) = _
    rw [guarded_esc]
  by_cases h6 : c = '%'
  · subst h6
    show guarded (bsc :: '%' :: l) = _
    rw [guarded_esc]
  · have hu : escUnit c = [c] := by simp [escUnit, h1, h2, h3, h4, h5, h6]
    rw [hu]
    show guarded (c :: l) = _
    exact guarded_other c l h1 (by simp [isStructuralChar, h3, h4, h5, h6])

theorem guarded_escaped (s : List Char) : guarded (escapeFFmpegText s) = true := by
  induction s with
  | nil => rfl
  | cons c s ih => rw [escapeFFmpegText_cons, guarded_escUnit]; exact ih

/-- C7: for every input string, the escaped text sits inside the
quoted drawtext value without disturbing the graph: the engine
tokenizer consumes the whole quoted region as one token and stops
exactly at the colon that follows it, leaving the rest of the graph
intact, whatever quotes, colons, brackets, percents or backslashes the
input contained; the token it reads back is the input with backslashes
doubled, which the drawtext unescape maps back to the input, so the
characters render literally; and every colon, bracket and percent in
the escaped output occurs only as the character of an escape sequence,
never bare. -/
theorem escaped_text_preserves_graph_structure :
    ∀ s rest : List Char,
    avGetToken false (qc :: (escapeFFmpegText s ++ (qc :: ':' :: rest)))
        = some (dblAll s, ':' :: rest)
    ∧ drawtextUnescape (dblAll s) = s
    ∧ guarded (escapeFFmpegText s) = true := by
  intro s rest
  refine ⟨?_, drawtextUnescape_dblAll s, guarded_escaped s⟩
  rw [avGetToken_quote, Bool.not_false, avGetToken_escaped, avGetToken_quote,
    Bool.not_true, avGetToken_colon]
  simp

/-! ## Facts about splitting and trimming -/

theorem dropWhile_eq_self_of_head (p : Char → Bool) (l : List Char)
    (h : ∀ a ∈ l.head?, p a = false) : l.dropWhile p = l := by
  cases l with
  | nil => rfl
  | cons a l => simp [List.dropWhile_cons, h a (by simp)]

theorem jsTrim_eq_self (l : List Char)
    (hh : ∀ a ∈ l.head?, a.isWhitespace = false)
    (hl : ∀ a ∈ l.getLast?, a.isWhitespace = false) : jsTrim l = l := by
  unfold jsTrim
  rw [dropWhile_eq_self_of_head _ _ hh]
  rw [dropWhile_eq_self_of_head _ _ (by simpa [List.head?_reverse] using hl)]
  exact List.reverse_reverse l

theorem jsTrim_space_cons (l : List Char) : jsTrim (' ' :: l) = jsTrim l := by
  have hsp : (' ' : Char).isWhitespace = true := by decide
  unfold jsTrim
  simp [List.dropWhile_cons, hsp]

theorem jsTrim_append_space (l : List Char) : jsTrim (l ++ [' ']) = jsTrim l := by
  have hsp : (' ' : Char).isWhitespace = true := by decide
  induction l with
  | nil => decide
  | cons a l ih =>
    by_cases ha : a.isWhitespace
    · have h1 : jsTrim (a :: (l ++ [' '])) = jsTrim (l ++ [' ']) := by
        unfold jsTrim; simp [List.dropWhile_cons, ha]
      have h2 : jsTrim (a :: l) = jsTrim l := by
        unfold jsTrim; simp [List.dropWhile_cons, ha]
      rw [List.cons_append, h1, ih, ← h2]
    · unfold jsTrim
      have hd1 : List.dropWhile Char.isWhitespace ((a :: l) ++ [' '])
          = (a :: l) ++ [' '] := by
        simp [List.cons_append, List.dropWhile_cons, ha]
      have hd2 : List.dropWhile Char.isWhitespace (a :: l) = a :: l := by
        simp [List.dropWhile_cons, ha]
      rw [hd1, hd2]
      congr 1
      rw [List.reverse_append]
      simp [List.dropWhile_cons, hsp]

theorem jsSplit_ne_nil (sep : Char) (l : List Char) : jsSplit sep l ≠ [] := by
  induction l with
  | nil => simp [jsSplit]
  | cons c l ih =>
    cases h : jsSplit sep l with
    | nil => simp [jsSplit, h]
    | cons w ws => by_cases hc : c = sep <;> simp [jsSplit, h, hc]

theorem jsSplit_no_space (l : List Char) (h : ' ' ∉ l) : jsSplit ' ' l = [l] := by
  induction l with
  | nil => rfl
  | cons c l ih =>
    have hc : ¬(c = ' ') := by
      intro hh
      exact h (hh ▸ List.mem_cons_self c l)
    have hl : ' ' ∉ l := fun hm => h (List.mem_cons_of_mem c hm)
    simp [jsSplit, ih hl, hc]

theorem jsSplit_mem_no_sep (sep : Char) (l : List Char) :
    ∀ w ∈ jsSplit sep l, sep ∉ w := by
  induction l with
  | nil =>
    intro w hw
    simp [jsSplit] at hw
    subst hw
    simp
  | cons c l ih =>
    intro w hw
    cases h : jsSplit sep l with
    | nil => exact absurd h (jsSplit_ne_nil sep l)
    | cons w0 ws0 =>
      simp only [jsSplit, h] at hw
      by_cases hc : c = sep
      · simp only [if_pos hc] at hw
        rcases List.mem_cons.mp hw with rfl | hw2
        · simp
        · exact ih w (h ▸ hw2)
      · simp only [if_neg hc] at hw
        rcases List.mem_cons.mp hw with rfl | hw2
        · intro hmem
          rcases List.mem_cons.mp hmem with rfl | hmem2
          · exact hc rfl
          · exact ih w0 (h ▸ List.mem_cons_self w0 ws0) hmem2
        · exact ih w (h ▸ List.mem_cons_of_mem w0 hw2)

theorem jsSplit_mem_subset (sep : Char) (l : List Char) :
    ∀ w ∈ jsSplit sep l, ∀ c ∈ w, c ∈ l := by
  induction l with
  | nil =>
    intro w hw
    simp [jsSplit] at hw
    subst hw
    simp
  | cons c l ih =>
    intro w hw d hd
    cases h : jsSplit sep l with
    | nil => exact absurd h (jsSplit_ne_nil sep l)
    | cons w0 ws0 =>
      simp only [jsSplit, h] at hw
      by_cases hc : c = sep
      · simp only [if_pos hc] at hw
        rcases List.mem_cons.mp hw with rfl | hw2
        · simp at hd
        · exact List.mem_cons_of_mem c (ih w (h ▸ hw2) d hd)
      · simp only [if_neg hc] at hw
        rcases List.mem_cons.mp hw with rfl | hw2
        · rcases List.mem_cons.mp hd with rfl | hd2
          · exact List.mem_cons_self d l
          · exact List.mem_cons_of_mem c
              (ih w0 (h ▸ List.mem_cons_self w0 ws0) d hd2)
        · exact List.mem_cons_of_mem c (ih w (h ▸ List.mem_cons_of_mem w0 hw2) d hd)

/-! ## Facts about joined word lines -/

/-- A word as produced by the split under the only-space-whitespace
hypothesis: nonempty with no whitespace at all. -/
def cleanWord (w : List Char) : Prop :=
  w ≠ [] ∧ ∀ c ∈ w, c.isWhitespace = false

theorem mem_of_head?_eq (l : List Char) (a : Char) (h : l.head? = some a) :
    a ∈ l := by
  cases l <;> simp_all

theorem mem_of_getLast?_eq (l : List Char) (a : Char) (h : l.getLast? = some a) :
    a ∈ l := by
  rw [← List.head?_reverse] at h
  exact List.mem_reverse.mp (mem_of_head?_eq _ _ h)

theorem joinWords_append_singleton (g : List (List Char)) (w : List Char)
    (hg : g ≠ []) : joinWords (g ++ [w]) = joinWords g ++ ' ' :: w := by
  induction g with
  | nil => exact absurd rfl hg
  | cons x g' ih =>
    cases g' with
    | nil => rfl
    | cons y g'' =>
      have h1 : joinWords (x :: ((y :: g'') ++ [w]))
          = x ++ ' ' :: joinWords ((y :: g'') ++ [w]) := rfl
      have h2 : joinWords (x :: y :: g'') = x ++ ' ' :: joinWords (y :: g'') := rfl
      rw [List.cons_append, h1, ih (by simp), h2]
      simp

theorem joinWords_ne_nil (g : List (List Char)) (hg : g ≠ [])
    (hw : ∀ w ∈ g, w ≠ []) : joinWords g ≠ [] := by
  cases g with
  | nil => exact absurd rfl hg
  | cons x g' =>
    cases g' with
    | nil => exact hw x (List.mem_cons_self x [])
    | cons y g'' =>
      have h : joinWords (x :: y :: g'') = x ++ ' ' :: joinWords (y :: g'') := rfl
      rw [h]
      simp [hw x (List.mem_cons_self x _)]

theorem joinWords_head_clean (g : List (List Char))
    (hcl : ∀ w ∈ g, cleanWord w) :
    ∀ a ∈ (joinWords g).head?, a.isWhitespace = false := by
  cases g with
  | nil => simp [joinWords]
  | cons x g' =>
    have hx := hcl x (List.mem_cons_self x g')
    have hhead : (joinWords (x :: g')).head? = x.head? := by
      cases g' with
      | nil => rfl
      | cons y g'' =>
        have h : joinWords (x :: y :: g'') = x ++ ' ' :: joinWords (y :: g'') := rfl
        rw [h]
        exact List.head?_append_of_ne_nil _ hx.1
    rw [hhead]
    intro a ha
    exact hx.2 a (mem_of_head?_eq _ _ ha)

theorem joinWords_last_clean (g : List (List Char))
    (hcl : ∀ w ∈ g, cleanWord w) :
    ∀ a ∈ (joinWords g).getLast?, a.isWhitespace = false := by
  induction g with
  | nil => simp [joinWords]
  | cons x g' ih =>
    cases g' with
    | nil =>
      have hx := hcl x (List.mem_cons_self x [])
      intro a ha
      exact hx.2 a (mem_of_getLast?_eq _ _ ha)
    | cons y g'' =>
      have h : joinWords (x :: y :: g'') = x ++ ' ' :: joinWords (y :: g'') := rfl
      have hj : joinWords (y :: g'') ≠ [] := by
        apply joinWords_ne_nil _ (by simp)
        intro w hwmem
        exact (hcl w (List.mem_cons_of_mem x hwmem)).1
      have hlast : (joinWords (x :: y :: g'')).getLast?
          = (joinWords (y :: g'')).getLast? := by
        rw [h, List.getLast?_append_of_ne_nil _ (by simp)]
        cases hjl : joinWords (y :: g'') with
        | nil => exact absurd hjl hj
        | cons b bl => rw [List.getLast?_cons_cons]
      rw [hlast]
      exact ih (fun w hw => hcl w (List.mem_cons_of_mem x hw))

theorem isEmpty_false_of_ne_nil (l : List Char) (h : l ≠ []) : l.isEmpty = false := by
  cases l with
  | nil => exact absurd rfl h
  | cons a t => rfl

theorem wrapLoop_cons (mc : Nat) (w : List Char) (ws lines : List (List Char))
    (cur : List Char) :
    wrapLoop mc (w :: ws) lines cur =
      if (jsTrim (cur ++ ' ' :: w)).length ≤ mc then
        wrapLoop mc ws lines (jsTrim (cur ++ ' ' :: w))
      else wrapLoop mc ws (lines ++ (if cur.isEmpty then [] else [cur])) w := by
  rw [wrapLoop.eq_def]

theorem wrapLoop_nil (mc : Nat) (lines : List (List Char)) (cur : List Char) :
    wrapLoop mc [] lines cur = (lines, cur) := by
  rw [wrapLoop.eq_def]

/-- Invariant of the greedy wrap loop under the only-space-whitespace
hypothesis: the accumulated lines are the single-space joins of a
partition of the nonempty words already consumed, in order, and the
pending line is the join of the current group. -/
theorem wrapLoop_spec (mc : Nat) :
    ∀ (ws : List (List Char)) (P : List (List (List Char))) (g : List (List Char)),
    (∀ w ∈ ws, ∀ c ∈ w, c.isWhitespace = false) →
    (∀ q ∈ P, q ≠ [] ∧ ∀ w ∈ q, cleanWord w) →
    (∀ w ∈ g, cleanWord w) →
    ∃ (P' : List (List (List Char))) (g' : List (List Char)),
      wrapLoop mc ws (P.map joinWords) (joinWords g)
          = (P'.map joinWords, joinWords g')
      ∧ P'.flatten ++ g' = P.flatten ++ g ++ ws.filter (fun w => !w.isEmpty)
      ∧ (∀ q ∈ P', q ≠ [] ∧ ∀ w ∈ q, cleanWord w)
      ∧ (∀ w ∈ g', cleanWord w) := by
  intro ws
  induction ws with
  | nil =>
    intro P g hws hP hg
    exact ⟨P, g, wrapLoop_nil mc _ _, by simp, hP, hg⟩
  | cons w ws ih =>
    intro P g hws hP hg
    have hwclean : ∀ c ∈ w, c.isWhitespace = false :=
      fun c hc => hws w (List.mem_cons_self w ws) c hc
    have hwsrest : ∀ w' ∈ ws, ∀ c ∈ w', c.isWhitespace = false :=
      fun w' hw' c hc => hws w' (List.mem_cons_of_mem w hw') c hc
    rw [wrapLoop_cons]
    by_cases hw0 : w = []
    · subst hw0
      have hcand : jsTrim (joinWords g ++ ' ' :: ([] : List Char)) = joinWords g := by
        rw [show (' ' :: ([] : List Char)) = [' '] from rfl, jsTrim_append_space]
        exact jsTrim_eq_self _ (joinWords_head_clean g hg) (joinWords_last_clean g hg)
      rw [hcand]
      by_cases hlen : (joinWords g).length ≤ mc
      · rw [if_pos hlen]
        obtain ⟨P', g', heq, hbook, hP', hg'⟩ := ih P g hwsrest hP hg
        refine ⟨P', g', heq, ?_, hP', hg'⟩
        rw [hbook]
        simp [List.filter_cons]
      · rw [if_neg hlen]
        have hgne : joinWords g ≠ [] := by
          intro h0
          rw [h0] at hlen
          exact hlen (by simp)
        have hgne2 : g ≠ [] := by
          rintro rfl
          exact hgne rfl
        have hisem : (joinWords g).isEmpty = false := isEmpty_false_of_ne_nil _ hgne
        simp only [hisem, Bool.false_eq_true, if_false]
        have hmap : P.map joinWords ++ [joinWords g] = (P ++ [g]).map joinWords := by
          simp
        rw [hmap]
        have hP2 : ∀ q ∈ P ++ [g], q ≠ [] ∧ ∀ w' ∈ q, cleanWord w' := by
          intro q hq
          rcases List.mem_append.mp hq with h | h
          · exact hP q h
          · simp at h
            subst h
            exact ⟨hgne2, hg⟩
        obtain ⟨P', g', heq, hbook, hP', hg'⟩ := ih (P ++ [g]) [] hwsrest hP2 (by simp)
        refine ⟨P', g', ?_, ?_, hP', hg'⟩
        · exact heq
        · rw [hbook]
          simp [List.filter_cons]
    · have hwcw : cleanWord w := ⟨hw0, hwclean⟩
      have hwe : w.isEmpty = false := isEmpty_false_of_ne_nil w hw0
      by_cases hgnil : g = []
      · subst hgnil
        have hcand : jsTrim (joinWords ([] : List (List Char)) ++ ' ' :: w)
            = joinWords [w] := by
          show jsTrim ([] ++ ' ' :: w) = w
          rw [List.nil_append, jsTrim_space_cons]
          exact jsTrim_eq_self w
            (fun a ha => hwclean a (mem_of_head?_eq _ _ ha))
            (fun a ha => hwclean a (mem_of_getLast?_eq _ _ ha))
        rw [hcand]
        have hw1 : ∀ w' ∈ [w], cleanWord w' := by
          intro w' hw'
          simp at hw'
          subst hw'
          exact hwcw
        by_cases hlen : (joinWords [w]).length ≤ mc
        · rw [if_pos hlen]
          obtain ⟨P', g', heq, hbook, hP', hg'⟩ := ih P [w] hwsrest hP hw1
          refine ⟨P', g', heq, ?_, hP', hg'⟩
          rw [hbook]
          simp [List.filter_cons, hwe]
        · rw [if_neg hlen]
          have hisem : (joinWords ([] : List (List Char))).isEmpty = true := rfl
          simp only [hisem, if_true]
          obtain ⟨P', g', heq, hbook, hP', hg'⟩ := ih P [w] hwsrest hP hw1
          refine ⟨P', g', ?_, ?_, hP', hg'⟩
          · have h2 : P.map joinWords ++ [] = P.map joinWords := by simp
            rw [h2]
            exact heq
          · rw [hbook]
            simp [List.filter_cons, hwe]
      · have hjw : joinWords g ≠ [] :=
          joinWords_ne_nil g hgnil (fun w' hw' => (hg w' hw').1)
        have hclean2 : ∀ w' ∈ g ++ [w], cleanWord w' := by
          intro w' hw'
          rcases List.mem_append.mp hw' with h | h
          · exact hg w' h
          · simp at h
            subst h
            exact hwcw
        have hcand : jsTrim (joinWords g ++ ' ' :: w) = joinWords (g ++ [w]) := by
          rw [← joinWords_append_singleton g w hgnil]
          exact jsTrim_eq_self _ (joinWords_head_clean _ hclean2)
            (joinWords_last_clean _ hclean2)
        rw [hcand]
        by_cases hlen : (joinWords (g ++ [w])).length ≤ mc
        · rw [if_pos hlen]
          obtain ⟨P', g', heq, hbook, hP', hg'⟩ := ih P (g ++ [w]) hwsrest hP hclean2
          refine ⟨P', g', heq, ?_, hP', hg'⟩
          rw [hbook]
          simp [List.filter_cons, hwe, List.append_assoc]
        · rw [if_neg hlen]
          have hisem : (joinWords g).isEmpty = false := isEmpty_false_of_ne_nil _ hjw
          simp only [hisem, Bool.false_eq_true, if_false]
          have hmap : P.map joinWords ++ [joinWords g] = (P ++ [g]).map joinWords := by
            simp
          rw [hmap]
          have hP2 : ∀ q ∈ P ++ [g], q ≠ [] ∧ ∀ w' ∈ q, cleanWord w' := by
            intro q hq
            rcases List.mem_append.mp hq with h | h
            · exact hP q h
            · simp at h
              subst h
              exact ⟨hgnil, hg⟩
          have hw1 : ∀ w' ∈ [w], cleanWord w' := by
            intro w' hw'
            simp at hw'
            subst hw'
            exact hwcw
          obtain ⟨P', g', heq, hbook, hP', hg'⟩ := ih (P ++ [g]) [w] hwsrest hP2 hw1
          refine ⟨P', g', ?_, ?_, hP', hg'⟩
          · exact heq
          · rw [hbook]
            simp [List.filter_cons, hwe, List.append_assoc]

theorem nlJoin_nil : nlJoin [] = [] := by rw [nlJoin.eq_def]

theorem nlJoin_singleton (l : List Char) : nlJoin [l] = l := by rw [nlJoin.eq_def]

/-- C8: behaviour of the word-wrapping function for every limit, and
in particular for the builder limit floor(canvasWidth/(fontSize*0.6)):
a string within the limit is returned unchanged as a single line; a
string with no spaces never wraps (at most one line, and the output is
the input or its trim, never a mid-word split); and a longer string of
words separated by single spaces is split only at spaces: its line
list is the single-space join of a partition of the nonempty words in
order, the lines being joined with the literal backslash-n marker. -/
theorem wrapText_spec :
    ∀ (text : List Char) (mc : Nat),
    (text.length ≤ mc → wrapText text mc = text)
    ∧ (' ' ∉ text → (wrapLines text mc).length ≤ 1
        ∧ (wrapText text mc = text ∨ wrapText text mc = jsTrim text))
    ∧ ((∀ c ∈ text, c.isWhitespace = true → c = ' ') → mc < text.length →
        ∃ P : List (List (List Char)),
          P.flatten = (jsSplit ' ' text).filter (fun w => !w.isEmpty)
          ∧ (∀ q ∈ P, q ≠ [])
          ∧ wrapLines text mc = P.map joinWords
          ∧ wrapText text mc = nlJoin (P.map joinWords)) := by
  intro text mc
  refine ⟨?_, ?_, ?_⟩
  · intro h
    unfold wrapText wrapLines
    rw [if_pos h, nlJoin_singleton]
  · intro hns
    by_cases h : text.length ≤ mc
    · unfold wrapText wrapLines
      rw [if_pos h, nlJoin_singleton]
      exact ⟨by simp, Or.inl rfl⟩
    · have hsplit : jsSplit ' ' text = [text] := jsSplit_no_space text hns
      have hne : text ≠ [] := by
        intro h0
        subst h0
        exact h (by simp)
      unfold wrapText wrapLines
      rw [if_neg h, hsplit, wrapLoop_cons, List.nil_append, jsTrim_space_cons]
      by_cases h2 : (jsTrim text).length ≤ mc
      · rw [if_pos h2, wrapLoop_nil]
        by_cases h3 : (jsTrim text).isEmpty
        · have h4 : jsTrim text = [] := by
            cases hjt : jsTrim text with
            | nil => rfl
            | cons a t => rw [hjt] at h3; simp [List.isEmpty] at h3
          simp only [h3, if_true, nlJoin_nil]
          refine ⟨by simp, Or.inr ?_⟩
          simp [h4, nlJoin_nil]
        · simp only [h3, Bool.false_eq_true, if_false]
          refine ⟨by simp, Or.inr ?_⟩
          simp [nlJoin_singleton]
      · rw [if_neg h2]
        have hcur : (([] : List Char)).isEmpty = true := rfl
        simp only [hcur, if_true, List.append_nil, wrapLoop_nil]
        have hte : text.isEmpty = false := isEmpty_false_of_ne_nil text hne
        simp only [hte, Bool.false_eq_true, if_false, List.nil_append]
        exact ⟨by simp, Or.inl (nlJoin_singleton text)⟩
  · intro hcl hlen
    have hnle : ¬text.length ≤ mc := by omega
    have hwords : ∀ w ∈ jsSplit ' ' text, ∀ c ∈ w, c.isWhitespace = false := by
      intro w hw c hc
      by_contra hcon
      have hct : c.isWhitespace = true := by
        cases hx : c.isWhitespace with
        | false => exact absurd hx hcon
        | true => rfl
      have hcs : c = ' ' := hcl c (jsSplit_mem_subset ' ' text w hw c hc) hct
      exact (jsSplit_mem_no_sep ' ' text w hw) (hcs ▸ hc)
    obtain ⟨P', g', heq, hbook, hP', hg'⟩ :=
      wrapLoop_spec mc (jsSplit ' ' text) [] [] hwords (by simp) (by simp)
    have heq2 : wrapLoop mc (jsSplit ' ' text) [] []
        = (P'.map joinWords, joinWords g') := heq
    by_cases hg'nil : g' = []
    · subst hg'nil
      refine ⟨P', ?_, fun q hq => (hP' q hq).1, ?_, ?_⟩
      · simpa using hbook
      · unfold wrapLines
        rw [if_neg hnle, heq2]
        have hje : (joinWords ([] : List (List Char))).isEmpty = true := rfl
        simp [hje]
      · unfold wrapText wrapLines
        rw [if_neg hnle, heq2]
        have hje : (joinWords ([] : List (List Char))).isEmpty = true := rfl
        simp [hje]
    · have hjne : joinWords g' ≠ [] :=
        joinWords_ne_nil g' hg'nil (fun w' hw' => (hg' w' hw').1)
      have hje : (joinWords g').isEmpty = false := isEmpty_false_of_ne_nil _ hjne
      refine ⟨P' ++ [g'], ?_, ?_, ?_, ?_⟩
      · rw [List.flatten_append]
        simpa using hbook
      · intro q hq
        rcases List.mem_append.mp hq with hmem | hmem
        · exact (hP' q hmem).1
        · simp at hmem
          subst hmem
          exact hg'nil
      · unfold wrapLines
        rw [if_neg hnle, heq2]
        simp [hje]
      · unfold wrapText wrapLines
        rw [if_neg hnle, heq2]
        simp [hje]

/-- Witness for the wrapping claim at concrete strings. -/
theorem wrapText_spec_witness :
    wrapText "hello".data 10 = "hello".data
    ∧ ((wrapLines "aaaa".data 2).length ≤ 1
        ∧ (wrapText "aaaa".data 2 = "aaaa".data
            ∨ wrapText "aaaa".data 2 = jsTrim "aaaa".data))
    ∧ (∃ P : List (List (List Char)),
        P.flatten = (jsSplit ' ' "aa bb cc".data).filter (fun w => !w.isEmpty)
        ∧ (∀ q ∈ P, q ≠ [])
        ∧ wrapLines "aa bb cc".data 5 = P.map joinWords
        ∧ wrapText "aa bb cc".data 5 = nlJoin (P.map joinWords)) :=
  ⟨(wrapText_spec "hello".data 10).1 (by decide),
   (wrapText_spec "aaaa".data 2).2.1 (by decide),
   (wrapText_spec "aa bb cc".data 5).2.2 (by decide) (by decide)⟩
